import Mathlib

/-!
# openclaw-bridge — verification of the connection/authentication/correlation core

Shallow embedding of `scripts/openclaw-bridge.js` (the device-identity version).
The embedding mirrors, definition by definition:

* the request correlation table (`sendReq`, `handleResponse`, the per-call
  timeout, `cleanup`, the `ws.onclose` rejection sweep),
* the completion-wait mechanism of `runSend` and the lifecycle branch of
  `ws.onmessage`,
* the token cache (`loadStoredDeviceToken`, `storeDeviceToken`, and the
  `fs.unlinkSync(DEVICE_AUTH_FILE)` stale-token deletion),
* the canonical signed payload builder (`buildDeviceAuthPayload`),
* the handshake retry logic of the `connect.challenge` branch of
  `ws.onmessage`.

JavaScript `Map`s and plain objects used as dictionaries are modelled as
association lists in insertion order: `set` replaces in place or appends,
`delete` removes the (unique) binding, iteration follows list order — exactly
the observable semantics of `Map` in the source.

Request ids in the source are strings: `String(++msgId)` for correlated calls
and the literal `"send-wait"` for the completion wait.  Since `String(n)` is
injective on numbers and never equal to `"send-wait"`, the id space is
modelled by the inductive `Key` below (`Key.req n` stands for `String(n)`,
`Key.sendWait` for `"send-wait"`).
-/

namespace OpenclawBridge

/-! ## Association-list maps with JavaScript `Map` semantics -/

def alookup {α β : Type} [DecidableEq α] : List (α × β) → α → Option β
  | [], _ => none
  | (k', v) :: t, k => if k' = k then some v else alookup t k

def aerase {α β : Type} [DecidableEq α] : List (α × β) → α → List (α × β)
  | [], _ => []
  | (k', v) :: t, k => if k' = k then t else (k', v) :: aerase t k

def aset {α β : Type} [DecidableEq α] : List (α × β) → α → β → List (α × β)
  | [], k, v => [(k, v)]
  | (k', v') :: t, k, v => if k' = k then (k, v) :: t else (k', v') :: aset t k v

def akeys {α β : Type} (m : List (α × β)) : List α := m.map Prod.fst

/-! ## Substring test (JavaScript `String.prototype.includes`) -/

def isPre : List Char → List Char → Bool
  | [], _ => true
  | _ :: _, [] => false
  | a :: as, b :: bs => a = b && isPre as bs

def hasSub (needle : List Char) : List Char → Bool
  | [] => isPre needle []
  | c :: t => isPre needle (c :: t) || hasSub needle t

/-- JavaScript `s.includes(sub)`. -/
def strIncludes (s sub : String) : Bool := hasSub sub.toList s.toList

/-! ## JavaScript truthiness on optional strings

`none` stands for `null`/`undefined`; `some ""` is a present but falsy
string.  `truthyStr o` is `some s` exactly when the JS value is truthy. -/

def truthyStr : Option String → Option String
  | none => none
  | some s => if s = "" then none else some s

/-! ## The correlation engine -/

/-- Keys of the `pending` map.  `Key.req n` stands for the string `String(n)`
produced by `String(++msgId)` in `sendReq`; `Key.sendWait` stands for the
literal key `"send-wait"` used by `runSend`.  (`String(n)` is injective on
numbers and is never the string `"send-wait"`, so this inductive is a faithful
image of the id strings that can ever hit the table.) -/
inductive Key : Type
  | req (n : Nat)
  | sendWait
deriving DecidableEq, Repr

/-- A response payload.  The correlation core treats payloads as opaque except
for the `runId` field read by `runSend` (`sendResult?.runId`); `body` stands
for the rest of the JSON object.  `runId = none` models an absent/`undefined`
field, `some ""` a present but falsy one. -/
structure Payload : Type where
  runId : Option String
  body : String
deriving DecidableEq, Repr

/-- The reason carried by an `Error` used to settle a promise.
`remoteError e` stands for `new Error(JSON.stringify(msg.error || "Unknown
error"))` with `e` the stringified gateway error detail; `timeoutErr m` for
the per-call timeout error; `closedErr` for the `ws.onclose` error. -/
inductive Reason : Type
  | remoteError (e : String)
  | timeoutErr (method : String)
  | closedErr
deriving DecidableEq, Repr

/-- The `.message` string of the `Error` denoted by a `Reason`, exactly as
built in the source. -/
def reasonMsg : Reason → String
  | .remoteError e => e
  | .timeoutErr method => "Timeout waiting for response to " ++ method
  | .closedErr => "Connection closed unexpectedly"

/-- The source expression `msg.error || "Unknown error"` on the (stringified) error detail. -/
def errText (e : String) : String := if e = "" then "Unknown error" else e

/-- A value with which a promise is fulfilled (i.e. its `resolve` was
called).  `pay p` is a response payload; `runStatus r st` is the object
`{runId: r, status: st}` built by `runSend`; `errVal re` is an `Error`
object passed to `resolve` — this happens for the `"send-wait"` entry whose
stored `reject` *is* its `resolve` (`{ resolve, reject: resolve, timer }`). -/
inductive Val : Type
  | pay (p : Payload)
  | runStatus (runId : Option String) (status : String)
  | errVal (re : Reason)
deriving DecidableEq, Repr

/-- How a promise was settled: `fulfilled v` means `resolve(v)` ran,
`rejected re` means `reject(new Error(reasonMsg re))` ran. -/
inductive Outcome : Type
  | fulfilled (v : Val)
  | rejected (re : Reason)
deriving DecidableEq, Repr

/-- An entry of the `pending` map.  `call method` is a `sendReq` entry
(`{resolve, reject, timer}`, with `method` captured by the timeout closure);
`sendWait` is the `runSend` entry `{resolve, reject: resolve, timer}`. -/
inductive Entry : Type
  | call (method : String)
  | sendWait
deriving DecidableEq, Repr

/-- The mutable state of the correlation engine: the `msgId` counter, the
`pending` map (insertion order preserved), the `authenticated` flag, the
`sendRunId` global, plus a log `settled` of every promise settlement in the
order it happened (the observable effect of invoking a stored
`resolve`/`reject`). -/
structure Sys : Type where
  msgId : Nat
  pending : List (Key × Entry)
  settled : List (Key × Outcome)
  authenticated : Bool
  sendRunId : Option String
deriving DecidableEq, Repr

def skeys (l : List (Key × Outcome)) : List Key := l.map Prod.fst

/-- Initial state at process start. -/
def init : Sys :=
  { msgId := 0, pending := [], settled := [], authenticated := false, sendRunId := none }

/-- Source `sendReq(method, params)`: allocate `String(++msgId)`, record the pending
call with its timer, send the frame.  (Params and the outbound frame are not
observable to the correlation machinery.) -/
def sendReq (s : Sys) (method : String) : Sys :=
  { s with
    msgId := s.msgId + 1
    pending := aset s.pending (.req (s.msgId + 1)) (.call method) }

/-- Source `handleResponse(msg)` for a frame `{type:"res", id, ok, payload, error}`:
look the id up; a miss is a no-op; a hit clears the timer, removes the entry
and settles its promise — `resolve(msg.payload)` on `ok`, otherwise
`reject(Error(JSON.stringify(msg.error || "Unknown error")))`, which for the
`"send-wait"` entry fulfills the promise with the `Error` as a value because
its stored `reject` is its `resolve`. -/
def handleResponse (s : Sys) (id : Key) (ok : Bool) (p : Payload) (err : String) : Sys :=
  match alookup s.pending id with
  | none => s
  | some entry =>
      let out : Outcome :=
        if ok then .fulfilled (.pay p)
        else match entry with
          | .call _ => .rejected (.remoteError (errText err))
          | .sendWait => .fulfilled (.errVal (.remoteError (errText err)))
      { s with pending := aerase s.pending id, settled := s.settled ++ [(id, out)] }

/-- The timer of the entry stored under `id` fires.  A timer is armed exactly
while its entry is in the table (every removal is paired with `clearTimeout`),
so an absent id means the timer was cancelled and the firing never happens.
The `sendReq` timer does `pending.delete(id); reject(Timeout...)` naming the
captured method; the `runSend` timer does `pending.delete("send-wait");
resolve({runId: sendRunId, status: "timeout"})` reading the `sendRunId`
global at fire time. -/
def fireTimer (s : Sys) (id : Key) : Sys :=
  match alookup s.pending id with
  | none => s
  | some (.call method) =>
      { s with
        pending := aerase s.pending id
        settled := s.settled ++ [(id, .rejected (.timeoutErr method))] }
  | some .sendWait =>
      { s with
        pending := aerase s.pending id
        settled := s.settled ++ [(id, .fulfilled (.runStatus s.sendRunId "timeout"))] }

/-- The lifecycle branch of `ws.onmessage` for a frame
`{type:"event", event:"agent", data:{stream, phase, runId}}`: guarded by the
truthiness of the `sendRunId` global, `stream === "lifecycle"`,
`phase === "end"` and `data.runId === sendRunId`; on a hit with the
`"send-wait"` entry present, clear its timer, remove it and
`resolve({runId: sendRunId, status: "completed"})`. -/
def onLifecycle (s : Sys) (stream phase : String) (rid : Option String) : Sys :=
  match truthyStr s.sendRunId with
  | none => s
  | some r =>
      if stream = "lifecycle" ∧ phase = "end" ∧ rid = some r then
        match alookup s.pending .sendWait with
        | none => s
        | some _ =>
            { s with
              pending := aerase s.pending .sendWait
              settled := s.settled ++ [(.sendWait, .fulfilled (.runStatus s.sendRunId "completed"))] }
      else s

/-- Source `ws.onclose` after authentication: walk the `pending` map in insertion
order, clear each timer and call `entry.reject(new Error("Connection closed
unexpectedly"))` — which for the `"send-wait"` entry is its `resolve` — then
clear the map.  Before authentication the handler terminates the process as a
connection failure without touching the table; no settlement occurs, modelled
as leaving the state unchanged. -/
def onClose (s : Sys) : Sys :=
  if s.authenticated then
    { s with
      pending := []
      settled := s.settled ++ s.pending.map (fun kv =>
        (kv.1, match kv.2 with
          | .call _ => Outcome.rejected .closedErr
          | .sendWait => Outcome.fulfilled (.errVal .closedErr))) }
  else s

/-- Source `cleanup(code)` (the SIGINT/SIGTERM path): clear every timer, clear the
table, close the socket, exit.  No promise is settled. -/
def cleanup (s : Sys) : Sys :=
  { s with pending := [] }

/-- The tail of `runSend` after the triggering `chat.send` call resolved with
payload `p`: set the `sendRunId` global to `p.runId`; if that value is falsy
return the payload directly (second component `some p`), otherwise register
the `"send-wait"` entry with its `SEND_TIMEOUT` timer and return nothing yet. -/
def runSendAfter (p : Payload) (s : Sys) : Sys × Option Payload :=
  let s' := { s with sendRunId := p.runId }
  match truthyStr p.runId with
  | none => (s', some p)
  | some _ => ({ s' with pending := aset s'.pending .sendWait .sendWait }, none)

/-- Events the correlation engine reacts to. -/
inductive Ev : Type
  | send (method : String)
  | res (id : Key) (ok : Bool) (p : Payload) (err : String)
  | timer (id : Key)
  | lifecycle (stream phase : String) (rid : Option String)
  | close
  | sendResp (p : Payload)
deriving DecidableEq, Repr

/-- One dispatch step. -/
def step (s : Sys) : Ev → Sys
  | .send method => sendReq s method
  | .res id ok p err => handleResponse s id ok p err
  | .timer id => fireTimer s id
  | .lifecycle stream phase rid => onLifecycle s stream phase rid
  | .close => onClose s
  | .sendResp p => (runSendAfter p s).1

/-- Processing a sequence of events. -/
def run (s : Sys) (es : List Ev) : Sys := es.foldl step s

/-! ## The token cache (`device-auth.json`) -/

/-- One entry of the `tokens` mapping: `{ token, role, scopes, updatedAtMs }`
as written by `storeDeviceToken`. -/
structure TokenEntry : Type where
  token : String
  role : String
  scopes : List String
  updatedAtMs : Nat
deriving DecidableEq, Repr

/-- The parsed shape of `device-auth.json`: `{ version, deviceId, tokens }`
with `tokens` a role-keyed object (association list in property order). -/
structure AuthStore : Type where
  version : Nat
  deviceId : String
  tokens : List (String × TokenEntry)
deriving DecidableEq, Repr

/-- The on-disk state of `DEVICE_AUTH_FILE`: missing, present but not
parseable as the expected shape (both `loadStoredDeviceToken` and
`storeDeviceToken` treat this exactly like missing, via their `catch`), or a
parsed record. -/
inductive FileState : Type
  | absent
  | corrupt
  | record (d : AuthStore)
deriving DecidableEq, Repr

/-- Source `loadStoredDeviceToken(deviceId, role)`: missing/unparseable file, a
version other than 1, or a record owned by a different device id all yield
`null`; otherwise return `data.tokens?.[role]?.token ?? null`. -/
def loadStoredDeviceToken (file : FileState) (deviceId role : String) : Option String :=
  match file with
  | .absent => none
  | .corrupt => none
  | .record d =>
      if d.version = 1 ∧ d.deviceId = deviceId then
        (alookup d.tokens role).map (fun e => e.token)
      else none

/-- Source `storeDeviceToken(deviceId, role, token, scopes)`: reuse the existing
record's `tokens` mapping only when the file parses as version 1 for the same
device id, else start from `{}`; then set `tokens[role] = { token, role,
scopes, updatedAtMs: now }` and write the whole record back. -/
def storeDeviceToken (file : FileState) (deviceId role token : String)
    (scopes : List String) (now : Nat) : FileState :=
  let existing : Option AuthStore :=
    match file with
    | .record d => if d.version = 1 ∧ d.deviceId = deviceId then some d else none
    | _ => none
  let baseTokens := (existing.map AuthStore.tokens).getD []
  .record
    { version := 1
      deviceId := deviceId
      tokens := aset baseTokens role
        { token := token, role := role, scopes := scopes, updatedAtMs := now } }

/-- Source `fs.unlinkSync(DEVICE_AUTH_FILE)` in the stale-token branch of the
handshake: the whole file is removed. -/
def unlinkDeviceAuthFile (_ : FileState) : FileState := .absent

/-! ## The canonical signed payload (`buildDeviceAuthPayload`) -/

/-- Source `buildDeviceAuthPayload(params)`:
`["v1", deviceId, clientId, clientMode, role, scopes.join(","),
String(signedAtMs), token ?? ""].join("|")`. -/
def buildDeviceAuthPayload (deviceId clientId clientMode role : String)
    (scopes : List String) (signedAtMs : Nat) (token : Option String) : String :=
  String.intercalate "|"
    ["v1", deviceId, clientId, clientMode, role,
     String.intercalate "," scopes, Nat.repr signedAtMs, token.getD ""]

/-! ## The handshake retry logic (`connect.challenge` branch of `ws.onmessage`)

The first connect attempt signs and sends with
`authToken = STORED_DEVICE_TOKEN ?? TOKEN`.  If the `connect` call throws and
`STORED_DEVICE_TOKEN && (e.message.includes("device_token_mismatch") ||
e.message.includes("unauthorized"))`, the cache file is unlinked and exactly
one retry is made with `TOKEN`; a retry failure, or any other first failure,
dies with an authentication error.  The gateway's behaviour is an input: the
outcome of the first `connect` call and (if consulted) of the retry call. -/

/-- Outcome of one `connect` request as seen by the `try` block: either it
resolved, or it threw an `Error` whose `.message` is `msg`. -/
inductive ConnectOutcome : Type
  | ok
  | err (msg : String)
deriving DecidableEq, Repr

/-- The environment of one handshake: the cached token loaded at startup
(`STORED_DEVICE_TOKEN`, `none` = `null`), the externally supplied gateway
token (`TOKEN`), and the gateway's reaction to the first and (potential)
retry connect attempts. -/
structure HsEnv : Type where
  storedToken : Option String
  gatewayToken : String
  firstOutcome : ConnectOutcome
  retryOutcome : ConnectOutcome
deriving DecidableEq, Repr

/-- Observable steps of a handshake, in order. -/
inductive HsStep : Type
  | attempt (token : String)
  | cacheDelete
  | success
  | fail (exitMsg : String)
deriving DecidableEq, Repr

/-- The stale-token test of the catch block:
`e.message.includes("device_token_mismatch") ||
e.message.includes("unauthorized")`. -/
def staleIndicated (msg : String) : Bool :=
  strIncludes msg "device_token_mismatch" || strIncludes msg "unauthorized"

/-- The handshake as run by the `connect.challenge` handler, as a trace of
its observable steps.  `attempt tok` is a `connect` call whose Connect
Parameters carry `tok` in both the signed payload and the `auth` block. -/
def runHandshake (env : HsEnv) : List HsStep :=
  let authToken := env.storedToken.getD env.gatewayToken
  match env.firstOutcome with
  | .ok => [.attempt authToken, .success]
  | .err msg =>
      if (truthyStr env.storedToken).isSome && staleIndicated msg then
        match env.retryOutcome with
        | .ok => [.attempt authToken, .cacheDelete, .attempt env.gatewayToken, .success]
        | .err m2 =>
            [.attempt authToken, .cacheDelete, .attempt env.gatewayToken,
             .fail ("Error: Authentication failed after retry — " ++ m2)]
      else [.attempt authToken, .fail ("Error: Authentication failed — " ++ msg)]

/-- Number of connect attempts in a handshake trace. -/
def countAttempts (tr : List HsStep) : Nat :=
  tr.countP (fun st => match st with | .attempt _ => true | _ => false)

/-! ## Well-formedness of engine states

Every state reachable from `init` satisfies `WF`: pending/settled request ids
were allocated by the counter, pending keys are unique (`Map` semantics), an
outstanding id has not settled yet, and no request id settles twice. -/

structure WF (s : Sys) : Prop where
  pendBound : ∀ n, Key.req n ∈ akeys s.pending → n ≤ s.msgId
  settBound : ∀ n, Key.req n ∈ skeys s.settled → n ≤ s.msgId
  pendNodup : (akeys s.pending).Nodup
  disj : ∀ n, Key.req n ∈ akeys s.pending → Key.req n ∉ skeys s.settled
  settOnce : ∀ n, (skeys s.settled).count (Key.req n) ≤ 1

/-- Returns `true` iff the settlement was a promise rejection. -/
def isRejection : Outcome → Bool
  | .rejected _ => true
  | .fulfilled _ => false

/-! ## Concrete states used as counterexamples and witnesses -/

/-- An authenticated state with one outstanding completion wait for run
`"r1"` (the state right after `runSend` registered `"send-wait"`). -/
def sysWaitEx : Sys :=
  { msgId := 1
    pending := [(.sendWait, .sendWait)]
    settled := []
    authenticated := true
    sendRunId := some "r1" }

/-- An authenticated state with one outstanding `status` call (id `"1"`). -/
def sysCallEx : Sys :=
  { msgId := 1
    pending := [(.req 1, .call "status")]
    settled := []
    authenticated := true
    sendRunId := none }

/-- A cache record for device `"dev1"` holding tokens for two roles. -/
def authFileEx : FileState :=
  .record
    { version := 1
      deviceId := "dev1"
      tokens :=
        [("operator", { token := "tokA", role := "operator",
                        scopes := ["operator.read"], updatedAtMs := 5 }),
         ("viewer", { token := "tokB", role := "viewer",
                      scopes := ["viewer.read"], updatedAtMs := 6 })] }

/-! ## Lemmas about the association-map operations -/

section MapLemmas

variable {α β : Type} [DecidableEq α]

theorem akeys_nil : akeys ([] : List (α × β)) = [] := rfl

theorem akeys_cons (kv : α × β) (t : List (α × β)) :
    akeys (kv :: t) = kv.1 :: akeys t := rfl

theorem akeys_append (l₁ l₂ : List (α × β)) :
    akeys (l₁ ++ l₂) = akeys l₁ ++ akeys l₂ := by
  simp [akeys]

theorem alookup_eq_none_iff (m : List (α × β)) (k : α) :
    alookup m k = none ↔ k ∉ akeys m := by
  induction m with
  | nil => simp [alookup, akeys_nil]
  | cons kv t ih =>
      obtain ⟨k', v⟩ := kv
      by_cases h : k' = k
      · subst h
        simp [alookup, akeys_cons]
      · have hne : ¬k = k' := fun he => h he.symm
        simp [alookup, h, akeys_cons, ih, hne]

theorem mem_of_alookup_eq_some {m : List (α × β)} {k : α} {v : β}
    (h : alookup m k = some v) : (k, v) ∈ m := by
  induction m with
  | nil => simp [alookup] at h
  | cons kv t ih =>
      obtain ⟨k', v'⟩ := kv
      by_cases hk : k' = k
      · subst hk
        simp [alookup] at h
        simp [h]
      · simp [alookup, hk] at h
        simp [ih h]

theorem mem_akeys_of_alookup {m : List (α × β)} {k : α} {v : β}
    (h : alookup m k = some v) : k ∈ akeys m := by
  have := mem_of_alookup_eq_some h
  simp only [akeys, List.mem_map]
  exact ⟨(k, v), this, rfl⟩

theorem mem_akeys_aerase {m : List (α × β)} {k k' : α}
    (h : k' ∈ akeys (aerase m k)) : k' ∈ akeys m := by
  induction m with
  | nil => simpa [aerase, akeys_nil] using h
  | cons kv t ih =>
      obtain ⟨k₀, v₀⟩ := kv
      by_cases hk : k₀ = k
      · simp [aerase, hk, akeys_cons] at h ⊢
        exact Or.inr h
      · simp [aerase, hk, akeys_cons] at h ⊢
        rcases h with h | h
        · exact Or.inl h
        · exact Or.inr (ih h)

theorem nodup_akeys_aerase {m : List (α × β)} {k : α}
    (h : (akeys m).Nodup) : (akeys (aerase m k)).Nodup := by
  induction m with
  | nil => simp [aerase, akeys_nil]
  | cons kv t ih =>
      obtain ⟨k₀, v₀⟩ := kv
      rw [akeys_cons, List.nodup_cons] at h
      by_cases hk : k₀ = k
      · simpa [aerase, hk] using h.2
      · simp only [aerase, hk, if_false, akeys_cons, List.nodup_cons]
        exact ⟨fun hm => h.1 (mem_akeys_aerase hm), ih h.2⟩

theorem not_mem_akeys_aerase {m : List (α × β)} {k : α}
    (h : (akeys m).Nodup) : k ∉ akeys (aerase m k) := by
  induction m with
  | nil => simp [aerase, akeys_nil]
  | cons kv t ih =>
      obtain ⟨k₀, v₀⟩ := kv
      rw [akeys_cons, List.nodup_cons] at h
      by_cases hk : k₀ = k
      · subst hk
        simpa [aerase] using h.1
      · simp only [aerase, hk, if_false, akeys_cons, List.mem_cons]
        push_neg
        exact ⟨fun he => hk he.symm, ih h.2⟩

theorem alookup_aerase_self {m : List (α × β)} {k : α}
    (h : (akeys m).Nodup) : alookup (aerase m k) k = none :=
  (alookup_eq_none_iff _ _).mpr (not_mem_akeys_aerase h)

theorem alookup_aset_self (m : List (α × β)) (k : α) (v : β) :
    alookup (aset m k v) k = some v := by
  induction m with
  | nil => simp [aset, alookup]
  | cons kv t ih =>
      obtain ⟨k₀, v₀⟩ := kv
      by_cases hk : k₀ = k <;> simp [aset, hk, alookup, ih]

theorem alookup_aset_ne (m : List (α × β)) {k k' : α} (v : β) (h : k' ≠ k) :
    alookup (aset m k v) k' = alookup m k' := by
  have hne : ¬k = k' := fun he => h he.symm
  induction m with
  | nil => simp [aset, alookup, hne]
  | cons kv t ih =>
      obtain ⟨k₀, v₀⟩ := kv
      by_cases hk : k₀ = k
      · subst hk
        simp [aset, alookup, hne]
      · simp [aset, hk, alookup]
        by_cases hk' : k₀ = k' <;> simp [hk', ih]

theorem mem_akeys_aset {m : List (α × β)} {k k' : α} {v : β}
    (h : k' ∈ akeys (aset m k v)) : k' ∈ akeys m ∨ k' = k := by
  induction m with
  | nil => simpa [aset, akeys_cons, akeys_nil] using h
  | cons kv t ih =>
      obtain ⟨k₀, v₀⟩ := kv
      by_cases hk : k₀ = k
      · simp [aset, hk, akeys_cons] at h ⊢
        tauto
      · simp [aset, hk, akeys_cons] at h ⊢
        tauto

theorem nodup_akeys_aset {m : List (α × β)} {k : α} {v : β}
    (h : (akeys m).Nodup) : (akeys (aset m k v)).Nodup := by
  induction m with
  | nil => simp [aset, akeys_cons, akeys_nil]
  | cons kv t ih =>
      obtain ⟨k₀, v₀⟩ := kv
      rw [akeys_cons, List.nodup_cons] at h
      by_cases hk : k₀ = k
      · subst hk
        rw [show aset ((k₀, v₀) :: t) k₀ v = (k₀, v) :: t from by simp [aset]]
        rw [akeys_cons, List.nodup_cons]
        exact ⟨h.1, h.2⟩
      · rw [show aset ((k₀, v₀) :: t) k v = (k₀, v₀) :: aset t k v from by simp [aset, hk]]
        rw [akeys_cons, List.nodup_cons]
        refine ⟨fun hm => ?_, ih h.2⟩
        rcases mem_akeys_aset hm with hm | hm
        · exact h.1 hm
        · exact hk hm

theorem aset_of_not_mem {m : List (α × β)} {k : α} (v : β)
    (h : k ∉ akeys m) : aset m k v = m ++ [(k, v)] := by
  induction m with
  | nil => simp [aset]
  | cons kv t ih =>
      obtain ⟨k₀, v₀⟩ := kv
      rw [akeys_cons, List.mem_cons] at h
      push_neg at h
      have hne : ¬k₀ = k := fun he => h.1 he.symm
      simp [aset, hne, ih h.2]

theorem alookup_unique {m : List (α × β)} {k : α} {v v' : β}
    (hnd : (akeys m).Nodup) (h : alookup m k = some v) (hm : (k, v') ∈ m) :
    v' = v := by
  induction m with
  | nil => simp at hm
  | cons kv t ih =>
      obtain ⟨k₀, v₀⟩ := kv
      rw [akeys_cons, List.nodup_cons] at hnd
      rcases List.mem_cons.mp hm with he | hm'
      · obtain ⟨he₁, he₂⟩ := Prod.mk.injEq .. ▸ he
        subst he₁
        rw [alookup, if_pos rfl] at h
        exact he₂.symm ▸ (Option.some.injEq .. ▸ h).symm ▸ rfl
      · have hk : k₀ ≠ k := by
          intro he
          subst he
          exact hnd.1 (by simpa [akeys] using List.mem_map_of_mem Prod.fst hm')
        rw [alookup, if_neg hk] at h
        exact ih hnd.2 h hm'

end MapLemmas

theorem skeys_append (l₁ l₂ : List (Key × Outcome)) :
    skeys (l₁ ++ l₂) = skeys l₁ ++ skeys l₂ := by
  simp [skeys]

theorem skeys_closeMap (m : List (Key × Entry))
    (f : Key × Entry → Outcome) :
    skeys (m.map (fun kv => (kv.1, f kv))) = akeys m := by
  simp [skeys, akeys]

/-- The accumulator form `String.intercalate.go acc sep l` folds the separator in from the left. -/
theorem intercalate_go_eq (sep : String) (a : String) (l : List String) :
    String.intercalate.go a sep l = l.foldl (fun acc x => acc ++ sep ++ x) a := by
  induction l generalizing a with
  | nil => simp [String.intercalate.go]
  | cons b t ih => simp [String.intercalate.go, ih]

/-- C9: the canonical signed payload built by `buildDeviceAuthPayload` is
exactly the pipe-joined sequence of the literal version tag `"v1"`, the
device identifier, the client id, the client mode, the requested role, the
comma-joined scope list in the given order, the signed-at timestamp as a
decimal millisecond string (`Nat.repr`), and the auth token in use — the
empty string when the token is absent — in this order with `'|'` as the join
character. -/
theorem buildDeviceAuthPayload_pipe_joined (deviceId clientId clientMode role : String)
    (scopes : List String) (signedAtMs : Nat) (token : Option String) :
    buildDeviceAuthPayload deviceId clientId clientMode role scopes signedAtMs token =
      "v1" ++ "|" ++ deviceId ++ "|" ++ clientId ++ "|" ++ clientMode ++ "|" ++ role ++ "|" ++
        String.intercalate "," scopes ++ "|" ++ Nat.repr signedAtMs ++ "|" ++
        (match token with | some tk => tk | none => "") := by
  rcases token with _ | tk <;>
    simp [buildDeviceAuthPayload, String.intercalate, intercalate_go_eq, Option.getD,
      String.append_assoc] <;>
    rfl

/-- C8: storing a token for role `R` via `storeDeviceToken` and then loading
for the same identifier and role `R` returns that same token; the store does
not disturb any other role's entry in the record for that identifier —
loading any other role afterwards gives exactly what it gave before, and when
the on-disk record already belongs to the same identifier the written record
is the old one with only role `R`'s binding replaced. -/
theorem storeDeviceToken_roundtrip (file : FileState) (did r r' tok : String)
    (scopes : List String) (now : Nat) (d : AuthStore) (hne : r' ≠ r) :
    loadStoredDeviceToken (storeDeviceToken file did r tok scopes now) did r = some tok ∧
    loadStoredDeviceToken (storeDeviceToken file did r tok scopes now) did r' =
      loadStoredDeviceToken file did r' ∧
    (file = .record d → d.version = 1 → d.deviceId = did →
      storeDeviceToken file did r tok scopes now =
        .record { version := 1, deviceId := did,
                  tokens := aset d.tokens r
                    { token := tok, role := r, scopes := scopes, updatedAtMs := now } } ∧
      alookup (aset d.tokens r
          { token := tok, role := r, scopes := scopes, updatedAtMs := now }) r' =
        alookup d.tokens r') := by
  refine ⟨?_, ?_, ?_⟩
  · rcases file with _ | _ | d₂
    · simp [storeDeviceToken, loadStoredDeviceToken, alookup_aset_self]
    · simp [storeDeviceToken, loadStoredDeviceToken, alookup_aset_self]
    · by_cases hc : d₂.version = 1 ∧ d₂.deviceId = did <;>
        simp [storeDeviceToken, loadStoredDeviceToken, hc, alookup_aset_self]
  · have hrr : ¬r = r' := fun he => hne he.symm
    rcases file with _ | _ | d₂
    · simp [storeDeviceToken, loadStoredDeviceToken, alookup_aset_ne _ _ hne, alookup, hrr]
    · simp [storeDeviceToken, loadStoredDeviceToken, alookup_aset_ne _ _ hne, alookup, hrr]
    · by_cases hc : d₂.version = 1 ∧ d₂.deviceId = did <;>
        simp [storeDeviceToken, loadStoredDeviceToken, hc, alookup_aset_ne _ _ hne,
          alookup, hrr]
  · rintro rfl h1 h2
    refine ⟨?_, alookup_aset_ne _ _ hne⟩
    simp [storeDeviceToken, h1, h2]

/-- C8 witness. -/
theorem storeDeviceToken_roundtrip_witness :
    loadStoredDeviceToken
        (storeDeviceToken authFileEx "dev1" "operator" "tokC" ["operator.read"] 9)
        "dev1" "operator" = some "tokC" ∧
    loadStoredDeviceToken
        (storeDeviceToken authFileEx "dev1" "operator" "tokC" ["operator.read"] 9)
        "dev1" "viewer" = loadStoredDeviceToken authFileEx "dev1" "viewer" := by
  have h := storeDeviceToken_roundtrip authFileEx "dev1" "operator" "viewer" "tokC"
    ["operator.read"] 9
    { version := 1, deviceId := "dev1", tokens := [] } (by decide)
  exact ⟨h.1, h.2.1⟩

/-- C7 (as stated, refuted): deleting the stale cache entry during the
handshake retry is `fs.unlinkSync(DEVICE_AUTH_FILE)` — it removes the whole
on-disk record, so an entry for a *different* role of the same identity that
was loadable before the deletion is no longer loadable after it. -/
theorem staleDelete_other_role_counterexample :
    loadStoredDeviceToken authFileEx "dev1" "viewer" = some "tokB" ∧
    loadStoredDeviceToken (unlinkDeviceAuthFile authFileEx) "dev1" "viewer" = none := by
  constructor <;> rfl

/-- C7 (amended): when a stale device token is detected during the handshake
retry path, the whole on-disk record is deleted (`fs.unlinkSync`), not just
the stale entry: afterwards no cached entry for any role of any identity is
loadable. -/
theorem staleDelete_removes_whole_record (file : FileState) (deviceId role : String) :
    unlinkDeviceAuthFile file = .absent ∧
    loadStoredDeviceToken (unlinkDeviceAuthFile file) deviceId role = none :=
  ⟨rfl, rfl⟩

/-- C6 (as stated, refuted): on forced shutdown `cleanup` clears the timers
and the table but settles nothing — here a state with an outstanding call
whose promise log is empty before cleanup still has an empty log after it, so
the remaining Pending Call was *not* rejected with a connection-closed error.
-/
theorem cleanup_no_reject_counterexample :
    sysCallEx.pending ≠ [] ∧
    (cleanup sysCallEx).pending = [] ∧
    (cleanup sysCallEx).settled = [] := by
  refine ⟨?_, rfl, rfl⟩
  simp [sysCallEx]

/-- C6 (amended): on forced shutdown (SIGINT/SIGTERM → `cleanup`), every
remaining Pending Call's timer is cleared and the table is cleared before the
process exits, but the calls' futures are not settled: no rejection (or any
other settlement) is recorded — the pending promises are simply abandoned as
the process exits. -/
theorem cleanup_clears_table_without_settling (s : Sys) :
    (cleanup s).pending = [] ∧
    (cleanup s).settled = s.settled ∧
    (cleanup s).msgId = s.msgId :=
  ⟨rfl, rfl, rfl⟩

/-- C5 (as stated, refuted): in an authenticated state with an outstanding
completion wait, `ws.onclose` settles the wait by *fulfilling* it with the
connection-closed `Error` as a value (its stored `reject` is its `resolve`),
not by rejecting it: the settlement log shows exactly one fulfilled outcome
and no rejection of the wait. -/
theorem close_wait_counterexample :
    sysWaitEx.authenticated = true ∧
    alookup sysWaitEx.pending .sendWait = some .sendWait ∧
    (onClose sysWaitEx).settled =
      [(Key.sendWait, Outcome.fulfilled (.errVal .closedErr))] ∧
    (onClose sysWaitEx).settled.filter (fun kv => isRejection kv.2) = [] := by
  refine ⟨rfl, rfl, rfl, rfl⟩

/-- C5 (amended): if the connection closes after authentication while a
Pending Completion Wait is outstanding, the wait is settled exactly by
*resolving* it with the connection-closed `Error` object as its value — the
`"send-wait"` entry stores `reject: resolve`, so no rejection reaches the
caller, which receives the `Error` as a normal result. -/
theorem close_wait_resolves_with_error_value (s : Sys)
    (hauth : s.authenticated = true)
    (hnd : (akeys s.pending).Nodup)
    (hw : alookup s.pending .sendWait = some .sendWait) :
    (Key.sendWait, Outcome.fulfilled (.errVal .closedErr)) ∈ (onClose s).settled ∧
    (onClose s).pending = [] ∧
    (∀ re, (Key.sendWait, Outcome.rejected re) ∈ (onClose s).settled →
      (Key.sendWait, Outcome.rejected re) ∈ s.settled) := by
  have hmem : (Key.sendWait, Entry.sendWait) ∈ s.pending := mem_of_alookup_eq_some hw
  refine ⟨?_, ?_, ?_⟩
  · simp only [onClose, hauth, if_pos]
    refine List.mem_append.mpr (Or.inr ?_)
    exact List.mem_map.mpr ⟨(Key.sendWait, Entry.sendWait), hmem, rfl⟩
  · simp [onClose, hauth]
  · intro re hre
    simp only [onClose, hauth, if_pos] at hre
    rcases List.mem_append.mp hre with h | h
    · exact h
    · exfalso
      rcases List.mem_map.mp h with ⟨⟨k, e⟩, hke, heq⟩
      have hk : k = Key.sendWait := congrArg Prod.fst heq
      subst hk
      have he : e = Entry.sendWait := alookup_unique hnd hw hke
      subst he
      exact absurd (congrArg Prod.snd heq) (by simp)

/-- C5 witness (for the amended theorem). -/
theorem close_wait_resolves_witness :
    (Key.sendWait, Outcome.fulfilled (.errVal .closedErr)) ∈ (onClose sysWaitEx).settled ∧
    (onClose sysWaitEx).pending = [] := by
  have h := close_wait_resolves_with_error_value sysWaitEx rfl (by decide) rfl
  exact ⟨h.1, h.2.1⟩

/-- C1: in a handshake whose first connect attempt used a cached device token
(`STORED_DEVICE_TOKEN` a non-empty string) and failed with a stale/mismatch
indication, exactly one automatic retry occurs, using the externally supplied
gateway token, with the cache deletion happening before the retry attempt; a
retry failure dies as an authentication failure (no further attempt ever —
every handshake makes at most two connect attempts).  If no cached token was
used, or the failure is not a stale indication, the handshake dies as an
authentication failure with no retry. -/
theorem handshake_single_retry (env : HsEnv) (t msg : String) :
    countAttempts (runHandshake env) ≤ 2 ∧
    (env.storedToken = some t → t ≠ "" → env.firstOutcome = .err msg →
      staleIndicated msg = true →
      runHandshake env =
        [.attempt t, .cacheDelete, .attempt env.gatewayToken] ++
          (match env.retryOutcome with
            | .ok => [HsStep.success]
            | .err m2 =>
                [HsStep.fail ("Error: Authentication failed after retry — " ++ m2)])) ∧
    (env.storedToken = none → env.firstOutcome = .err msg →
      runHandshake env =
        [.attempt env.gatewayToken, .fail ("Error: Authentication failed — " ++ msg)]) ∧
    (env.firstOutcome = .err msg → staleIndicated msg = false →
      runHandshake env =
        [.attempt (env.storedToken.getD env.gatewayToken),
         .fail ("Error: Authentication failed — " ++ msg)]) := by
  refine ⟨?_, ?_, ?_, ?_⟩
  · rcases henv : env.firstOutcome with _ | m
    · simp [runHandshake, henv, countAttempts]
    · rcases hretry : env.retryOutcome with _ | m2 <;>
        by_cases hg : (truthyStr env.storedToken).isSome && staleIndicated m <;>
          simp [runHandshake, henv, hretry, hg, countAttempts]
  · intro hst htne hfo hstale
    rcases hretry : env.retryOutcome with _ | m2 <;>
      simp [runHandshake, hfo, hretry, hst, truthyStr, htne, hstale]
  · intro hst hfo
    simp [runHandshake, hfo, hst, truthyStr]
  · intro hfo hstale
    simp [runHandshake, hfo, hstale]

/-- C1 witness: a cached token `"cached"` rejected with a
`device_token_mismatch` message, whose retry with the gateway token is also
rejected, produces exactly the attempt/delete/attempt/fail trace. -/
theorem handshake_single_retry_witness :
    runHandshake
        { storedToken := some "cached", gatewayToken := "gw",
          firstOutcome := .err "device_token_mismatch: stale",
          retryOutcome := .err "unauthorized" } =
      [.attempt "cached", .cacheDelete, .attempt "gw",
       .fail ("Error: Authentication failed after retry — " ++ "unauthorized")] := by
  have h := (handshake_single_retry
    { storedToken := some "cached", gatewayToken := "gw",
      firstOutcome := .err "device_token_mismatch: stale",
      retryOutcome := .err "unauthorized" }
    "cached" "device_token_mismatch: stale").2.1 rfl (by decide) rfl (by decide)
  simpa using h

/-- C10: if the `chat.send` response payload carries no truthy `runId`,
`runSend` returns that payload directly as the command result, registers no
Pending Completion Wait and starts no completion deadline timer — the pending
table and the settlement log are untouched — and afterwards no lifecycle
event can change the engine state. -/
theorem runSend_falsy_runId_returns_directly (s : Sys) (p : Payload)
    (hf : truthyStr p.runId = none) :
    runSendAfter p s = ({ s with sendRunId := p.runId }, some p) ∧
    (runSendAfter p s).1.pending = s.pending ∧
    (runSendAfter p s).1.settled = s.settled ∧
    (∀ stream phase rid,
      step (runSendAfter p s).1 (.lifecycle stream phase rid) = (runSendAfter p s).1) := by
  have h1 : runSendAfter p s = ({ s with sendRunId := p.runId }, some p) := by
    simp [runSendAfter, hf]
  refine ⟨h1, by rw [h1], by rw [h1], ?_⟩
  intro stream phase rid
  rw [h1]
  simp [step, onLifecycle, hf]

/-- C10 witness. -/
theorem runSend_falsy_runId_witness :
    runSendAfter { runId := none, body := "ack" } init =
      ({ init with sendRunId := none }, some { runId := none, body := "ack" }) := by
  exact (runSend_falsy_runId_returns_directly init { runId := none, body := "ack" } rfl).1

/-- C4: with a completion wait outstanding for run `r`: a lifecycle event
whose run identifier does not match `r` (or that is not a terminal
`lifecycle`/`end` event) leaves the state untouched, so it never resolves the
wait; a matching terminal event settles the wait exactly once by fulfilling
it with `{runId, status: "completed"}` and removes it, after which any
further lifecycle event (duplicate terminal events included) is a no-op; if
the deadline timer fires first, the wait is fulfilled with `{runId, status:
"timeout"}` — a resolution, not a rejection. -/
theorem completion_wait_matching_and_timeout (s : Sys) (r : String)
    (hr : s.sendRunId = some r) (hrne : r ≠ "")
    (hnd : (akeys s.pending).Nodup)
    (hw : alookup s.pending .sendWait = some .sendWait) :
    (∀ stream phase rid, ¬(stream = "lifecycle" ∧ phase = "end" ∧ rid = some r) →
      onLifecycle s stream phase rid = s) ∧
    (onLifecycle s "lifecycle" "end" (some r) =
      { s with
        pending := aerase s.pending .sendWait
        settled := s.settled ++
          [(.sendWait, .fulfilled (.runStatus (some r) "completed"))] }) ∧
    (∀ stream phase rid,
      onLifecycle (onLifecycle s "lifecycle" "end" (some r)) stream phase rid =
        onLifecycle s "lifecycle" "end" (some r)) ∧
    (fireTimer s .sendWait =
      { s with
        pending := aerase s.pending .sendWait
        settled := s.settled ++
          [(.sendWait, .fulfilled (.runStatus (some r) "timeout"))] }) := by
  have htr : truthyStr s.sendRunId = some r := by simp [hr, truthyStr, hrne]
  have hdone : onLifecycle s "lifecycle" "end" (some r) =
      { s with
        pending := aerase s.pending .sendWait
        settled := s.settled ++
          [(.sendWait, .fulfilled (.runStatus (some r) "completed"))] } := by
    simp [onLifecycle, htr, hw, hr, truthyStr, hrne]
  refine ⟨?_, hdone, ?_, ?_⟩
  · intro stream phase rid hno
    simp only [onLifecycle, htr]
    rw [if_neg hno]
  · intro stream phase rid
    rw [hdone]
    have hgone : alookup (aerase s.pending Key.sendWait) Key.sendWait = none :=
      alookup_aerase_self hnd
    by_cases hc : stream = "lifecycle" ∧ phase = "end" ∧ rid = some r
    · simp only [onLifecycle, htr]
      rw [if_pos hc]
      simp [hgone]
    · simp only [onLifecycle, htr]
      rw [if_neg hc]
  · simp [fireTimer, hw, hr]

/-! ## Invariance machinery for the correlation table -/

theorem sendReq_settled (s : Sys) (m : String) : (sendReq s m).settled = s.settled := rfl

/-- Every step only appends to the settlement log, and every appended
settlement is for a key that was pending before the step. -/
theorem step_settled_append (s : Sys) (ev : Ev) :
    ∃ l, (step s ev).settled = s.settled ++ l ∧ ∀ kv ∈ l, kv.1 ∈ akeys s.pending := by
  cases ev with
  | send m => exact ⟨[], by simp [step, sendReq], by simp⟩
  | res id ok p err =>
      rcases hl : alookup s.pending id with _ | entry
      · exact ⟨[], by simp [step, handleResponse, hl], by simp⟩
      · simp only [step, handleResponse, hl]
        refine ⟨_, rfl, ?_⟩
        intro kv hkv
        rw [List.mem_singleton] at hkv
        subst hkv
        exact mem_akeys_of_alookup hl
  | timer id =>
      rcases hl : alookup s.pending id with _ | entry
      · exact ⟨[], by simp [step, fireTimer, hl], by simp⟩
      · cases entry with
        | call m =>
            simp only [step, fireTimer, hl]
            refine ⟨_, rfl, ?_⟩
            intro kv hkv
            rw [List.mem_singleton] at hkv
            subst hkv
            exact mem_akeys_of_alookup hl
        | sendWait =>
            simp only [step, fireTimer, hl]
            refine ⟨_, rfl, ?_⟩
            intro kv hkv
            rw [List.mem_singleton] at hkv
            subst hkv
            exact mem_akeys_of_alookup hl
  | lifecycle stream phase rid =>
      rcases ht : truthyStr s.sendRunId with _ | r
      · exact ⟨[], by simp [step, onLifecycle, ht], by simp⟩
      · by_cases hc : stream = "lifecycle" ∧ phase = "end" ∧ rid = some r
        · rcases hl : alookup s.pending .sendWait with _ | entry
          · refine ⟨[], ?_, by simp⟩
            simp only [step, onLifecycle, ht]
            rw [if_pos hc, hl]
            simp
          · simp only [step, onLifecycle, ht]
            rw [if_pos hc, hl]
            refine ⟨_, rfl, ?_⟩
            intro kv hkv
            rw [List.mem_singleton] at hkv
            subst hkv
            exact mem_akeys_of_alookup hl
        · refine ⟨[], ?_, by simp⟩
          simp only [step, onLifecycle, ht]
          rw [if_neg hc]
          simp
  | close =>
      by_cases ha : s.authenticated
      · simp only [step, onClose, ha, if_pos]
        refine ⟨_, rfl, ?_⟩
        intro kv hkv
        rcases List.mem_map.mp hkv with ⟨kv₀, hkv₀, heq⟩
        have : kv.1 = kv₀.1 := by rw [← heq]
        rw [this]
        exact List.mem_map_of_mem Prod.fst hkv₀
      · exact ⟨[], by simp [step, onClose, ha], by simp⟩
  | sendResp p =>
      rcases ht : truthyStr p.runId with _ | r
      · exact ⟨[], by simp [step, runSendAfter, ht], by simp⟩
      · exact ⟨[], by simp [step, runSendAfter, ht], by simp⟩

/-- Every key pending after a step was pending before, or is the freshly
allocated request id, or is the completion-wait key. -/
theorem mem_akeys_step_pending (s : Sys) (ev : Ev) (k : Key)
    (h : k ∈ akeys (step s ev).pending) :
    k ∈ akeys s.pending ∨ k = Key.req (s.msgId + 1) ∨ k = Key.sendWait := by
  cases ev with
  | send m =>
      simp only [step, sendReq] at h
      rcases mem_akeys_aset h with h | h
      · exact Or.inl h
      · exact Or.inr (Or.inl h)
  | res id ok p err =>
      rcases hl : alookup s.pending id with _ | entry <;>
        simp only [step, handleResponse, hl] at h
      · exact Or.inl h
      · exact Or.inl (mem_akeys_aerase h)
  | timer id =>
      rcases hl : alookup s.pending id with _ | entry
      · simp only [step, fireTimer, hl] at h
        exact Or.inl h
      · cases entry <;> simp only [step, fireTimer, hl] at h <;>
          exact Or.inl (mem_akeys_aerase h)
  | lifecycle stream phase rid =>
      rcases ht : truthyStr s.sendRunId with _ | r
      · simp only [step, onLifecycle, ht] at h
        exact Or.inl h
      · by_cases hc : stream = "lifecycle" ∧ phase = "end" ∧ rid = some r
        · rcases hl : alookup s.pending .sendWait with _ | entry
          · simp only [step, onLifecycle, ht] at h
            rw [if_pos hc, hl] at h
            exact Or.inl h
          · simp only [step, onLifecycle, ht] at h
            rw [if_pos hc, hl] at h
            exact Or.inl (mem_akeys_aerase h)
        · simp only [step, onLifecycle, ht] at h
          rw [if_neg hc] at h
          exact Or.inl h
  | close =>
      by_cases ha : s.authenticated <;> simp only [step, onClose, ha] at h
      · simp [akeys] at h
      · exact Or.inl h
  | sendResp p =>
      rcases ht : truthyStr p.runId with _ | r <;>
        simp only [step, runSendAfter, ht] at h
      · exact Or.inl h
      · rcases mem_akeys_aset h with h | h
        · exact Or.inl h
        · exact Or.inr (Or.inr h)

/-- A step never decreases the id counter. -/
theorem step_msgId_le (s : Sys) (ev : Ev) : s.msgId ≤ (step s ev).msgId := by
  cases ev with
  | send m => simp [step, sendReq]
  | res id ok p err =>
      rcases hl : alookup s.pending id with _ | entry <;>
        simp [step, handleResponse, hl]
  | timer id =>
      rcases hl : alookup s.pending id with _ | entry
      · simp [step, fireTimer, hl]
      · cases entry <;> simp [step, fireTimer, hl]
  | lifecycle stream phase rid =>
      rcases ht : truthyStr s.sendRunId with _ | r
      · simp [step, onLifecycle, ht]
      · by_cases hc : stream = "lifecycle" ∧ phase = "end" ∧ rid = some r
        · rcases hl : alookup s.pending .sendWait with _ | entry
          · simp only [step, onLifecycle, ht]
            rw [if_pos hc, hl]
          · simp only [step, onLifecycle, ht]
            rw [if_pos hc, hl]
        · simp only [step, onLifecycle, ht]
          rw [if_neg hc]
  | close => by_cases ha : s.authenticated <;> simp [step, onClose, ha]
  | sendResp p =>
      rcases ht : truthyStr p.runId with _ | r <;> simp [step, runSendAfter, ht]

theorem skeys_single (k : Key) (o : Outcome) : skeys [(k, o)] = [k] := rfl

/-- Settling one pending entry (remove it, append its settlement) preserves
well-formedness. -/
theorem WF_settle_one {s : Sys} (id : Key) (out : Outcome)
    (hWF : WF s) (hmem : id ∈ akeys s.pending) :
    WF { s with pending := aerase s.pending id, settled := s.settled ++ [(id, out)] } := by
  refine ⟨?_, ?_, ?_, ?_, ?_⟩
  · intro n hn
    exact hWF.pendBound n (mem_akeys_aerase hn)
  · intro n hn
    rw [skeys_append, skeys_single, List.mem_append, List.mem_singleton] at hn
    rcases hn with hn | hn
    · exact hWF.settBound n hn
    · exact hWF.pendBound n (hn ▸ hmem)
  · exact nodup_akeys_aerase hWF.pendNodup
  · intro n hn
    have hmem' : Key.req n ∈ akeys s.pending := mem_akeys_aerase hn
    rw [skeys_append, skeys_single, List.mem_append, List.mem_singleton]
    push_neg
    refine ⟨hWF.disj n hmem', ?_⟩
    intro he
    exact not_mem_akeys_aerase hWF.pendNodup (he ▸ hn)
  · intro n
    rw [skeys_append, skeys_single, List.count_append]
    by_cases he : id = Key.req n
    · subst he
      have h0 : (skeys s.settled).count (Key.req n) = 0 :=
        List.count_eq_zero.mpr (hWF.disj _ hmem)
      simp [h0]
    · have h0 : List.count (Key.req n) [id] = 0 :=
        List.count_eq_zero.mpr (by simp [Ne.symm he])
      rw [h0]
      simpa using hWF.settOnce n

theorem init_WF : WF init := by
  refine ⟨?_, ?_, ?_, ?_, ?_⟩ <;> simp [init, akeys, skeys]

/-- One step preserves well-formedness. -/
theorem step_WF {s : Sys} (ev : Ev) (hWF : WF s) : WF (step s ev) := by
  cases ev with
  | send m =>
      simp only [step, sendReq]
      have hfresh : Key.req (s.msgId + 1) ∉ akeys s.pending := by
        intro hmem
        exact absurd (hWF.pendBound _ hmem) (by omega)
      refine ⟨?_, ?_, ?_, ?_, ?_⟩
      · intro n hn
        show n ≤ s.msgId + 1
        rcases mem_akeys_aset hn with hn | hn
        · exact le_trans (hWF.pendBound n hn) (Nat.le_succ _)
        · have : n = s.msgId + 1 := by
            injection hn
          omega
      · intro n hn
        show n ≤ s.msgId + 1
        exact le_trans (hWF.settBound n hn) (Nat.le_succ _)
      · exact nodup_akeys_aset hWF.pendNodup
      · intro n hn
        rcases mem_akeys_aset hn with hn | hn
        · exact hWF.disj n hn
        · intro hsett
          have hb := hWF.settBound n hsett
          have : n = s.msgId + 1 := by injection hn
          omega
      · exact hWF.settOnce
  | res id ok p err =>
      rcases hl : alookup s.pending id with _ | entry
      · simpa [step, handleResponse, hl] using hWF
      · simp only [step, handleResponse, hl]
        exact WF_settle_one id _ hWF (mem_akeys_of_alookup hl)
  | timer id =>
      rcases hl : alookup s.pending id with _ | entry
      · simpa [step, fireTimer, hl] using hWF
      · cases entry with
        | call m =>
            simp only [step, fireTimer, hl]
            exact WF_settle_one id _ hWF (mem_akeys_of_alookup hl)
        | sendWait =>
            simp only [step, fireTimer, hl]
            exact WF_settle_one id _ hWF (mem_akeys_of_alookup hl)
  | lifecycle stream phase rid =>
      rcases ht : truthyStr s.sendRunId with _ | r
      · simpa [step, onLifecycle, ht] using hWF
      · by_cases hc : stream = "lifecycle" ∧ phase = "end" ∧ rid = some r
        · rcases hl : alookup s.pending .sendWait with _ | entry
          · simp only [step, onLifecycle, ht]
            rw [if_pos hc, hl]
            exact hWF
          · simp only [step, onLifecycle, ht]
            rw [if_pos hc, hl]
            exact WF_settle_one .sendWait _ hWF (mem_akeys_of_alookup hl)
        · simp only [step, onLifecycle, ht]
          rw [if_neg hc]
          exact hWF
  | close =>
      by_cases ha : s.authenticated
      · simp only [step, onClose, ha, if_pos]
        refine ⟨?_, ?_, ?_, ?_, ?_⟩
        · intro n hn
          simp [akeys] at hn
        · intro n hn
          rw [skeys_append, List.mem_append, skeys_closeMap] at hn
          rcases hn with hn | hn
          · exact hWF.settBound n hn
          · exact hWF.pendBound n hn
        · simp [akeys]
        · intro n hn
          simp [akeys] at hn
        · intro n
          rw [skeys_append, List.count_append, skeys_closeMap]
          by_cases hp : Key.req n ∈ akeys s.pending
          · have h0 : (skeys s.settled).count (Key.req n) = 0 :=
              List.count_eq_zero.mpr (hWF.disj n hp)
            have h1 : (akeys s.pending).count (Key.req n) ≤ 1 :=
              List.nodup_iff_count_le_one.mp hWF.pendNodup _
            omega
          · have h0 : (akeys s.pending).count (Key.req n) = 0 :=
              List.count_eq_zero.mpr hp
            have h1 := hWF.settOnce n
            omega
      · simpa [step, onClose, ha] using hWF
  | sendResp p =>
      rcases ht : truthyStr p.runId with _ | r
      · simp only [step, runSendAfter, ht]
        exact ⟨hWF.pendBound, hWF.settBound, hWF.pendNodup, hWF.disj, hWF.settOnce⟩
      · simp only [step, runSendAfter, ht]
        refine ⟨?_, hWF.settBound, nodup_akeys_aset hWF.pendNodup, ?_, hWF.settOnce⟩
        · intro n hn
          rcases mem_akeys_aset hn with hn | hn
          · exact hWF.pendBound n hn
          · exact absurd hn (by simp)
        · intro n hn
          rcases mem_akeys_aset hn with hn | hn
          · exact hWF.disj n hn
          · exact absurd hn (by simp)

/-- Well-formedness holds along any run. -/
theorem run_WF (es : List Ev) : ∀ s, WF s → WF (run s es) := by
  induction es with
  | nil => intro s h; exact h
  | cons ev t ih =>
      intro s h
      exact ih (step s ev) (step_WF ev h)

/-- If a request id is settled no more and no less often after a step that
starts with it not pending (and within the allocated counter range), and it
stays non-pending. -/
theorem step_count_stable (s : Sys) (ev : Ev) (n : Nat)
    (hn : n ≤ s.msgId) (hnp : Key.req n ∉ akeys s.pending) :
    (skeys (step s ev).settled).count (Key.req n) =
      (skeys s.settled).count (Key.req n) ∧
    Key.req n ∉ akeys (step s ev).pending ∧
    n ≤ (step s ev).msgId := by
  obtain ⟨l, hl, hk⟩ := step_settled_append s ev
  refine ⟨?_, ?_, le_trans hn (step_msgId_le s ev)⟩
  · rw [hl, skeys_append, List.count_append]
    have h0 : (skeys l).count (Key.req n) = 0 := by
      apply List.count_eq_zero.mpr
      intro hmem
      rcases List.mem_map.mp hmem with ⟨kv, hkv, hfst⟩
      exact hnp (hfst ▸ hk kv hkv)
    omega
  · intro hmem
    rcases mem_akeys_step_pending s ev _ hmem with h | h | h
    · exact hnp h
    · have : n = s.msgId + 1 := by injection h
      omega
    · exact absurd h (by simp)

/-- Along any run started with a request id not pending, the number of
settlements of that id never changes. -/
theorem run_count_stable (es : List Ev) : ∀ (s : Sys) (n : Nat), n ≤ s.msgId →
    Key.req n ∉ akeys s.pending →
    (skeys (run s es).settled).count (Key.req n) =
      (skeys s.settled).count (Key.req n) := by
  induction es with
  | nil => intro s n _ _; rfl
  | cons ev t ih =>
      intro s n hn hnp
      obtain ⟨h1, h2, h3⟩ := step_count_stable s ev n hn hnp
      calc (skeys (run (step s ev) t).settled).count (Key.req n)
          = (skeys (step s ev).settled).count (Key.req n) := ih (step s ev) n h3 h2
        _ = (skeys s.settled).count (Key.req n) := h1

/-- A settlement fulfilling request id `n` with a payload can only be
produced by a response frame carrying exactly that id and that payload. -/
theorem step_pay_provenance (s : Sys) (ev : Ev) (n : Nat) (p : Payload)
    (h : (Key.req n, Outcome.fulfilled (.pay p)) ∈ (step s ev).settled) :
    (Key.req n, Outcome.fulfilled (.pay p)) ∈ s.settled ∨
      ∃ e, ev = .res (.req n) true p e := by
  cases ev with
  | send m =>
      left
      simpa [step, sendReq] using h
  | res id ok p' err =>
      rcases hl : alookup s.pending id with _ | entry
      · left
        simpa [step, handleResponse, hl] using h
      · simp only [step, handleResponse, hl] at h
        rcases List.mem_append.mp h with h | h
        · left
          exact h
        · right
          rw [List.mem_singleton, Prod.mk.injEq] at h
          obtain ⟨hid, hout⟩ := h
          cases ok with
          | true =>
              rw [if_pos rfl] at hout
              have hp : p = p' := by
                injection Outcome.fulfilled.inj hout
              exact ⟨err, by rw [← hid, hp]⟩
          | false =>
              rw [if_neg (by simp)] at hout
              cases entry with
              | call m => exact absurd hout (by simp)
              | sendWait => exact absurd hout (by simp)
  | timer id =>
      rcases hl : alookup s.pending id with _ | entry
      · left
        simpa [step, fireTimer, hl] using h
      · cases entry with
        | call m =>
            simp only [step, fireTimer, hl] at h
            rcases List.mem_append.mp h with h | h
            · left
              exact h
            · rw [List.mem_singleton, Prod.mk.injEq] at h
              exact absurd h.2 (by simp)
        | sendWait =>
            simp only [step, fireTimer, hl] at h
            rcases List.mem_append.mp h with h | h
            · left
              exact h
            · rw [List.mem_singleton, Prod.mk.injEq] at h
              exact absurd h.2 (by simp)
  | lifecycle stream phase rid =>
      rcases ht : truthyStr s.sendRunId with _ | r
      · left
        simpa [step, onLifecycle, ht] using h
      · by_cases hc : stream = "lifecycle" ∧ phase = "end" ∧ rid = some r
        · rcases hl : alookup s.pending .sendWait with _ | entry
          · left
            simp only [step, onLifecycle, ht] at h
            rw [if_pos hc, hl] at h
            exact h
          · simp only [step, onLifecycle, ht] at h
            rw [if_pos hc, hl] at h
            rcases List.mem_append.mp h with h | h
            · left
              exact h
            · rw [List.mem_singleton, Prod.mk.injEq] at h
              exact absurd h.2 (by simp)
        · left
          simp only [step, onLifecycle, ht] at h
          rw [if_neg hc] at h
          exact h
  | close =>
      by_cases ha : s.authenticated
      · simp only [step, onClose, ha, if_pos] at h
        rcases List.mem_append.mp h with h | h
        · left
          exact h
        · rcases List.mem_map.mp h with ⟨⟨k, e⟩, hke, heq⟩
          have hsnd := congrArg Prod.snd heq
          cases e with
          | call m => exact absurd hsnd (by simp)
          | sendWait => exact absurd hsnd (by simp)
      · left
        simpa [step, onClose, ha] using h
  | sendResp p' =>
      rcases ht : truthyStr p'.runId with _ | r
      · left
        simpa [step, runSendAfter, ht] using h
      · left
        simpa [step, runSendAfter, ht] using h

/-- A settlement rejecting request id `n` with a remote error can only be
produced by a non-ok response frame carrying exactly that id, whose error
detail yields that message. -/
theorem step_remote_provenance (s : Sys) (ev : Ev) (n : Nat) (e0 : String)
    (h : (Key.req n, Outcome.rejected (.remoteError e0)) ∈ (step s ev).settled) :
    (Key.req n, Outcome.rejected (.remoteError e0)) ∈ s.settled ∨
      ∃ p e, ev = .res (.req n) false p e ∧ errText e = e0 := by
  cases ev with
  | send m =>
      left
      simpa [step, sendReq] using h
  | res id ok p' err =>
      rcases hl : alookup s.pending id with _ | entry
      · left
        simpa [step, handleResponse, hl] using h
      · simp only [step, handleResponse, hl] at h
        rcases List.mem_append.mp h with h | h
        · left
          exact h
        · right
          rw [List.mem_singleton, Prod.mk.injEq] at h
          obtain ⟨hid, hout⟩ := h
          cases ok with
          | true =>
              rw [if_pos rfl] at hout
              exact absurd hout (by simp)
          | false =>
              rw [if_neg (by simp)] at hout
              cases entry with
              | call m =>
                  have he : errText err = e0 :=
                    (Reason.remoteError.inj (Outcome.rejected.inj hout)).symm
                  exact ⟨p', err, by rw [← hid], he⟩
              | sendWait => exact absurd hout (by simp)
  | timer id =>
      rcases hl : alookup s.pending id with _ | entry
      · left
        simpa [step, fireTimer, hl] using h
      · cases entry with
        | call m =>
            simp only [step, fireTimer, hl] at h
            rcases List.mem_append.mp h with h | h
            · left
              exact h
            · rw [List.mem_singleton, Prod.mk.injEq] at h
              exact absurd h.2 (by simp)
        | sendWait =>
            simp only [step, fireTimer, hl] at h
            rcases List.mem_append.mp h with h | h
            · left
              exact h
            · rw [List.mem_singleton, Prod.mk.injEq] at h
              exact absurd h.2 (by simp)
  | lifecycle stream phase rid =>
      rcases ht : truthyStr s.sendRunId with _ | r
      · left
        simpa [step, onLifecycle, ht] using h
      · by_cases hc : stream = "lifecycle" ∧ phase = "end" ∧ rid = some r
        · rcases hl : alookup s.pending .sendWait with _ | entry
          · left
            simp only [step, onLifecycle, ht] at h
            rw [if_pos hc, hl] at h
            exact h
          · simp only [step, onLifecycle, ht] at h
            rw [if_pos hc, hl] at h
            rcases List.mem_append.mp h with h | h
            · left
              exact h
            · rw [List.mem_singleton, Prod.mk.injEq] at h
              exact absurd h.2 (by simp)
        · left
          simp only [step, onLifecycle, ht] at h
          rw [if_neg hc] at h
          exact h
  | close =>
      by_cases ha : s.authenticated
      · simp only [step, onClose, ha, if_pos] at h
        rcases List.mem_append.mp h with h | h
        · left
          exact h
        · rcases List.mem_map.mp h with ⟨⟨k, e⟩, hke, heq⟩
          have hsnd := congrArg Prod.snd heq
          cases e with
          | call m => exact absurd hsnd (by simp)
          | sendWait => exact absurd hsnd (by simp)
      · left
        simpa [step, onClose, ha] using h
  | sendResp p' =>
      rcases ht : truthyStr p'.runId with _ | r
      · left
        simpa [step, runSendAfter, ht] using h
      · left
        simpa [step, runSendAfter, ht] using h

/-- Run-level provenance of payload fulfillments. -/
theorem run_pay_provenance (es : List Ev) : ∀ (s : Sys) (n : Nat) (p : Payload),
    (Key.req n, Outcome.fulfilled (.pay p)) ∈ (run s es).settled →
    (Key.req n, Outcome.fulfilled (.pay p)) ∈ s.settled ∨
      ∃ e, Ev.res (.req n) true p e ∈ es := by
  induction es with
  | nil =>
      intro s n p h
      exact Or.inl h
  | cons ev t ih =>
      intro s n p h
      rcases ih (step s ev) n p h with h' | ⟨e, he⟩
      · rcases step_pay_provenance s ev n p h' with h'' | ⟨e, he⟩
        · exact Or.inl h''
        · exact Or.inr ⟨e, by rw [he]; exact List.mem_cons_self _ _⟩
      · exact Or.inr ⟨e, List.mem_cons_of_mem _ he⟩

/-- Run-level provenance of remote-error rejections. -/
theorem run_remote_provenance (es : List Ev) : ∀ (s : Sys) (n : Nat) (e0 : String),
    (Key.req n, Outcome.rejected (.remoteError e0)) ∈ (run s es).settled →
    (Key.req n, Outcome.rejected (.remoteError e0)) ∈ s.settled ∨
      ∃ p e, Ev.res (.req n) false p e ∈ es ∧ errText e = e0 := by
  induction es with
  | nil =>
      intro s n e0 h
      exact Or.inl h
  | cons ev t ih =>
      intro s n e0 h
      rcases ih (step s ev) n e0 h with h' | ⟨p, e, he, hee⟩
      · rcases step_remote_provenance s ev n e0 h' with h'' | ⟨p, e, he, hee⟩
        · exact Or.inl h''
        · exact Or.inr ⟨p, e, by rw [he]; exact List.mem_cons_self _ _, hee⟩
      · exact Or.inr ⟨p, e, List.mem_cons_of_mem _ he, hee⟩

/-- C2: on any reachable state of one connection, a response frame settles
exactly the Pending Call whose id it carries — resolving with its payload on
`ok`, rejecting with its error detail otherwise — and this is the only way a
call can be settled with a response payload or a remote error: over any event
sequence (responses, timer firings and lifecycle events interleaved in any
order), every response-shaped settlement of request id `n` originates from a
response frame carrying exactly id `n`, and no request id ever settles more
than once. -/
theorem response_correlation (es0 es : List Ev) (n : Nat) (m : String)
    (ok : Bool) (p : Payload) (e : String) :
    (alookup (run init es0).pending (.req n) = some (.call m) →
      handleResponse (run init es0) (.req n) ok p e =
        { run init es0 with
          pending := aerase (run init es0).pending (.req n)
          settled := (run init es0).settled ++
            [(.req n, if ok then .fulfilled (.pay p)
                      else .rejected (.remoteError (errText e)))] }) ∧
    ((Key.req n, Outcome.fulfilled (.pay p)) ∈ (run init es).settled →
      ∃ e', Ev.res (.req n) true p e' ∈ es) ∧
    (∀ e0, (Key.req n, Outcome.rejected (.remoteError e0)) ∈ (run init es).settled →
      ∃ p' e', Ev.res (.req n) false p' e' ∈ es ∧ errText e' = e0) ∧
    (skeys (run init es).settled).count (.req n) ≤ 1 := by
  refine ⟨?_, ?_, ?_, (run_WF es init init_WF).settOnce n⟩
  · intro hl
    cases ok <;> simp [handleResponse, hl]
  · intro h
    rcases run_pay_provenance es init n p h with h' | h'
    · exact absurd h' (by simp [init])
    · exact h'
  · intro e0 h
    rcases run_remote_provenance es init n e0 h with h' | h'
    · exact absurd h' (by simp [init])
    · exact h'

/-- C2 witness: after `sendReq("status")` allocated id `"1"`, the response
frame with id `"1"` resolves that call with its payload. -/
theorem response_correlation_witness :
    handleResponse (run init [Ev.send "status"]) (.req 1) true
        { runId := none, body := "st" } "" =
      { run init [Ev.send "status"] with
        pending := aerase (run init [Ev.send "status"]).pending (.req 1)
        settled := (run init [Ev.send "status"]).settled ++
          [(.req 1, .fulfilled (.pay { runId := none, body := "st" }))] } := by
  have h := (response_correlation [Ev.send "status"] [] 1 "status" true
    { runId := none, body := "st" } "").1 (by decide)
  simpa using h

/-- C3: on any reachable state with the call of id `n` (method `m`) still
pending, a firing of its deadline timer rejects its future with a timeout
error naming the issuing method, removes the id from the table, makes any
later response frame carrying that id a no-op, and the id's settlement count
stays exactly one along every possible continuation — the call rejects
exactly once. -/
theorem call_timeout_exactly_once (es0 : List Ev) (n : Nat) (m : String)
    (hl : alookup (run init es0).pending (.req n) = some (.call m)) :
    (fireTimer (run init es0) (.req n)).settled =
      (run init es0).settled ++ [(.req n, .rejected (.timeoutErr m))] ∧
    reasonMsg (.timeoutErr m) = "Timeout waiting for response to " ++ m ∧
    alookup (fireTimer (run init es0) (.req n)).pending (.req n) = none ∧
    (∀ ok p e, handleResponse (fireTimer (run init es0) (.req n)) (.req n) ok p e =
      fireTimer (run init es0) (.req n)) ∧
    (∀ es, (skeys (run (fireTimer (run init es0) (.req n)) es).settled).count
      (.req n) = 1) := by
  have hWF : WF (run init es0) := run_WF es0 init init_WF
  have hfire : fireTimer (run init es0) (.req n) =
      { run init es0 with
        pending := aerase (run init es0).pending (.req n)
        settled := (run init es0).settled ++ [(.req n, .rejected (.timeoutErr m))] } := by
    simp [fireTimer, hl]
  have hnone : alookup (fireTimer (run init es0) (.req n)).pending (.req n) = none := by
    rw [hfire]
    exact alookup_aerase_self hWF.pendNodup
  refine ⟨by rw [hfire], rfl, hnone, ?_, ?_⟩
  · intro ok p e
    simp [handleResponse, hnone]
  · intro es
    have hcount1 : (skeys (fireTimer (run init es0) (.req n)).settled).count
        (Key.req n) = 1 := by
      rw [hfire]
      show ((skeys ((run init es0).settled ++ _)).count _) = 1
      rw [skeys_append, List.count_append, skeys_single]
      have h0 : (skeys (run init es0).settled).count (Key.req n) = 0 :=
        List.count_eq_zero.mpr (hWF.disj n (mem_akeys_of_alookup hl))
      simp [h0]
    have hnp : Key.req n ∉ akeys (fireTimer (run init es0) (.req n)).pending := by
      rw [hfire]
      exact not_mem_akeys_aerase hWF.pendNodup
    have hb : n ≤ (fireTimer (run init es0) (.req n)).msgId := by
      rw [hfire]
      exact hWF.pendBound n (mem_akeys_of_alookup hl)
    rw [run_count_stable es _ n hb hnp, hcount1]

/-- C3 witness: the call of id `"1"` (`status`) timing out settles as a
timeout rejection, exactly once. -/
theorem call_timeout_witness :
    (fireTimer (run init [Ev.send "status"]) (.req 1)).settled =
      (run init [Ev.send "status"]).settled ++
        [(.req 1, .rejected (.timeoutErr "status"))] ∧
    (skeys (run (fireTimer (run init [Ev.send "status"]) (.req 1)) []).settled).count
      (.req 1) = 1 := by
  have h := call_timeout_exactly_once [Ev.send "status"] 1 "status" (by decide)
  exact ⟨h.1, h.2.2.2.2 []⟩

/-- C4 witness: from the concrete waiting state, a non-matching lifecycle
event is a no-op and the matching terminal event settles the wait with
`{runId: "r1", status: "completed"}`. -/
theorem completion_wait_witness :
    onLifecycle sysWaitEx "lifecycle" "end" (some "r2") = sysWaitEx ∧
    onLifecycle sysWaitEx "lifecycle" "end" (some "r1") =
      { sysWaitEx with
        pending := aerase sysWaitEx.pending .sendWait
        settled := sysWaitEx.settled ++
          [(.sendWait, .fulfilled (.runStatus (some "r1") "completed"))] } := by
  have h := completion_wait_matching_and_timeout sysWaitEx "r1" rfl (by decide)
    (by decide) rfl
  exact ⟨h.1 "lifecycle" "end" (some "r2") (by simp), h.2.1⟩

end OpenclawBridge
